import Mathlib

/-!
Verification of the filepilot edit-instruction protocol and patch engine.

The development shallowly embeds the core of `filepilot` (the instruction
parser, the patch applier and the diff engine) in Lean 4:

* `src/filepilot/changemanager.py` — `ChangeManager.apply_edit_instructions_to_content`,
  `ChangeManager.parse_edit_instructions`, `ChangeManager.show_diff`;
* `src/filepilot/visualdiff.py` — `VisualDiff.get_changes`, `VisualDiff.visualize_diff`.

Python strings are modelled as Lean `String` (with most work done on the
underlying `List Char`), Python `int` as `Int`/`Nat`, dictionaries with the
fields the code reads as structures with `Option` fields, and exceptions as
`Except`.  The line matcher used by `VisualDiff.get_changes` is
`difflib.SequenceMatcher` from the Python standard library (external to the
repository); it is embedded from the stdlib algorithm with `isjunk=None`, as
the repository constructs it.  The `autojunk` popularity heuristic, which has
an effect only when the second sequence has at least 200 lines and then only
on lines occurring more than `len//100 + 1` times, is omitted; every other
part (the `b2j` index, the `j2len` dynamic programme, the match extension
loops, the recursive block search, block merging and opcode generation) is
translated operation for operation.
-/

/-! ### Python string primitives on `List Char` -/

/-- Python whitespace (`str.isspace`, also the set matched by `\s` in `re`
for text patterns): ASCII whitespace, the C1 separators, and the Unicode
space characters. -/
def isPySpace (c : Char) : Bool :=
  c = ' ' || c = '\t' || c = '\n' || c = '\r' || c = '\x0b' || c = '\x0c' ||
  c = '\x1c' || c = '\x1d' || c = '\x1e' || c = '\x1f' || c = '\x85' ||
  c = '\xa0' || c = '\u1680' ||
  ('\u2000' ≤ c && c ≤ '\u200A') ||
  c = '\u2028' || c = '\u2029' || c = '\u202F' || c = '\u205F' || c = '\u3000'

/-- Python `t in s` (substring containment), scanning left to right. -/
def pyInL (t : List Char) : List Char → Bool
  | [] => t.isPrefixOf []
  | c :: cs => t.isPrefixOf (c :: cs) || pyInL t cs

/-- Python `s.split(pat, 1)[1]`: everything after the first occurrence of
`pat` (the callers guard with `pat in s`, so the `[]` fallback is unused). -/
def afterFirstL (pat : List Char) : List Char → List Char
  | [] => []
  | c :: cs =>
    if pat.isPrefixOf (c :: cs) then (c :: cs).drop pat.length
    else afterFirstL pat cs

/-- Python `s.split('\n')`; note `"".split('\n') == ['']`. -/
def splitNlL : List Char → List (List Char)
  | [] => [[]]
  | c :: cs =>
    if c = '\n' then [] :: splitNlL cs
    else
      match splitNlL cs with
      | [] => [[c]]
      | l :: ls => (c :: l) :: ls

/-- Python `'\n'.join(parts)`. -/
def joinNlL : List (List Char) → List Char
  | [] => []
  | [l] => l
  | l :: l' :: ls => l ++ '\n' :: joinNlL (l' :: ls)

/-- Python `s.rstrip('\n')`: drop every trailing `'\n'`. -/
def rstripNlL (s : List Char) : List Char :=
  (s.reverse.dropWhile (fun c => c = '\n')).reverse

/-- Python `s.strip()`: drop whitespace from both ends. -/
def stripL (s : List Char) : List Char :=
  ((s.dropWhile isPySpace).reverse.dropWhile isPySpace).reverse

/-- The line-boundary characters of Python `str.splitlines`. -/
def isLineBreakChar (c : Char) : Bool :=
  c = '\n' || c = '\r' || c = '\x0b' || c = '\x0c' ||
  c = '\x1c' || c = '\x1d' || c = '\x1e' || c = '\x85' ||
  c = '\u2028' || c = '\u2029'

/-- Worker for Python `str.splitlines`: `"\r\n"` counts as a single break and
a trailing break does not open an extra empty line. -/
def splitlinesGo (acc : List Char) : List Char → List (List Char)
  | [] => if acc.isEmpty then [] else [acc.reverse]
  | '\r' :: '\n' :: cs => acc.reverse :: splitlinesGo [] cs
  | c :: cs =>
    if isLineBreakChar c then acc.reverse :: splitlinesGo [] cs
    else splitlinesGo (c :: acc) cs

/-- Python `s.splitlines()`. -/
def pySplitlines (s : String) : List String :=
  (splitlinesGo [] s.data).map String.mk

/-- Worker for Python `s.replace(old, new)` with a non-empty `old`
(decomposed as `o :: os`): non-overlapping replacement, left to right. -/
def replAux (o : Char) (os new : List Char) : List Char → List Char
  | [] => []
  | c :: cs =>
    if (o :: os).isPrefixOf (c :: cs) then new ++ replAux o os new (cs.drop os.length)
    else c :: replAux o os new cs
termination_by s => s.length
decreasing_by
  · simp only [List.length_cons, List.length_drop]; omega
  · simp only [List.length_cons]; omega

/-- Python `s.replace(old, new)`; with `old = ""`, Python interleaves `new`
around every character. -/
def pyReplaceL (old new s : List Char) : List Char :=
  match old with
  | [] => new ++ s.foldr (fun c acc => c :: (new ++ acc)) []
  | o :: os => replAux o os new s

/-- First index `i ≥ start` at which `pat` occurs in `s` (Python
`s.find(pat, start)` when the result is non-negative). -/
def findSubL (pat s : List Char) (start : Nat) : Option Nat :=
  ((List.range (s.length + 1)).filter
    (fun i => decide (start ≤ i) && pat.isPrefixOf (s.drop i))).head?

/-- All indices `i ≥ start` at which `pat` occurs in `s`, ascending. -/
def occurrencesL (pat s : List Char) (start : Nat) : List Nat :=
  (List.range (s.length + 1)).filter
    (fun i => decide (start ≤ i) && pat.isPrefixOf (s.drop i))

/-! ### difflib.SequenceMatcher (stdlib, `isjunk=None`)

`VisualDiff.get_changes` builds `difflib.SequenceMatcher(None, lines1, lines2)`
and walks `get_opcodes()`.  The matcher is embedded below from the standard
library source; dictionaries keyed by line are replaced by the function
`b2jGet`, and the `j2len` dictionary by a total function `Nat → Nat` that is
`0` outside its support (exactly `j2len.get(j, 0)`). -/

/-- `b2j[x]`: the positions of line `x` in `b`, in ascending order (difflib
builds this index by appending while enumerating `b`). -/
def b2jGet (b : List String) (x : String) : List Nat :=
  (List.range b.length).filter (fun j => b.getD j "" == x)

/-- The inner loop of `find_longest_match` for one row `i`: for each
candidate column `j`, `k = newj2len[j] = j2len.get(j-1, 0) + 1`, and the best
match is updated when `k > bestsize`.  (`k ≤ i+1` and `k ≤ j+1` always hold,
so the `Nat` subtractions `i+1-k` and `j+1-k` are exact.) -/
def flmInner (i : Nat) (old : Nat → Nat) :
    List Nat → ((Nat → Nat) × Nat × Nat × Nat) → ((Nat → Nat) × Nat × Nat × Nat)
  | [], st => st
  | j :: js, (nw, bi, bj, bs) =>
    let k := (if j = 0 then 0 else old (j - 1)) + 1
    let nw' := fun m => if m = j then k else nw m
    flmInner i old js
      (if bs < k then (nw', i + 1 - k, j + 1 - k, k) else (nw', bi, bj, bs))

/-- The candidate columns for row `i`, following the stdlib inner loop:
`continue` on `j < blo`, `break` at the first `j >= bhi` (the `b2j` lists
are ascending). -/
def rowCols (a b : List String) (blo bhi i : Nat) : List Nat :=
  ((b2jGet b (a.getD i "")).takeWhile (fun j => j < bhi)).filter
    (fun j => decide (blo ≤ j))

/-- The outer `for i in range(alo, ahi)` loop of `find_longest_match`:
each row starts from a fresh `newj2len` and threads the best match. -/
def flmLoop (a b : List String) (blo bhi : Nat) :
    List Nat → (Nat → Nat) → Nat × Nat × Nat → Nat × Nat × Nat
  | [], _, best => best
  | i :: is, j2len, best =>
    flmLoop a b blo bhi is
      (flmInner i j2len (rowCols a b blo bhi i) ((fun _ => 0), best.1, best.2.1, best.2.2)).1
      (flmInner i j2len (rowCols a b blo bhi i) ((fun _ => 0), best.1, best.2.1, best.2.2)).2

/-- The first `while` loop after the dynamic programme: extend the match
leftwards over equal elements (with `isjunk=None` the junk tests are
vacuous, and the two junk-extension loops never fire).  The recursion is
structural on `bi`: when `bi = 0` the guard `alo < bi` is false, so
returning immediately agrees with the loop. -/
def extendLeft (a b : List String) (alo blo : Nat) :
    Nat → Nat → Nat → Nat × Nat × Nat
  | 0, bj, bs => (0, bj, bs)
  | bi + 1, bj, bs =>
    if alo < bi + 1 ∧ blo < bj ∧ a.getD bi "" == b.getD (bj - 1) "" then
      extendLeft a b alo blo bi (bj - 1) (bs + 1)
    else (bi + 1, bj, bs)

/-- The second `while` loop: extend the match rightwards over equal
elements.  The recursion is structural on the remaining room
`ahi - (bi + bs)`, which the caller supplies; when it is `0` the guard
`bi + bs < ahi` is false, so returning immediately agrees with the loop. -/
def extendRightAux (a b : List String) (ahi bhi bi bj : Nat) : Nat → Nat → Nat
  | 0, bs => bs
  | room + 1, bs =>
    if bi + bs < ahi ∧ bj + bs < bhi ∧ a.getD (bi + bs) "" == b.getD (bj + bs) "" then
      extendRightAux a b ahi bhi bi bj room (bs + 1)
    else bs

/-- The second `while` loop of `find_longest_match`. -/
def extendRight (a b : List String) (ahi bhi bi bj bs : Nat) : Nat :=
  extendRightAux a b ahi bhi bi bj (ahi - (bi + bs)) bs

/-- `SequenceMatcher.find_longest_match(alo, ahi, blo, bhi)`. -/
def find_longest_match (a b : List String) (alo ahi blo bhi : Nat) : Nat × Nat × Nat :=
  match flmLoop a b blo bhi (List.range' alo (ahi - alo)) (fun _ => 0) (alo, blo, 0) with
  | (bi, bj, bs) =>
    match extendLeft a b alo blo bi bj bs with
    | (bi, bj, bs) => (bi, bj, extendRight a b ahi bhi bi bj bs)

/-- The queue loop of `get_matching_blocks`.  Python pops from the end of
`queue` and pushes the left part then the right part; the queue is kept here
in reversed order, so the pop is from the head and the right part is pushed
in front of the left part.  The fuel argument strictly bounds the number of
iterations (each division consumes a nonempty block, so `2*(la+lb)+2` always
suffices). -/
def gmbLoop (a b : List String) :
    Nat → List (Nat × Nat × Nat × Nat) → List (Nat × Nat × Nat) → List (Nat × Nat × Nat)
  | _, [], acc => acc
  | 0, _, acc => acc
  | fuel + 1, (alo, ahi, blo, bhi) :: rest, acc =>
    match find_longest_match a b alo ahi blo bhi with
    | (i, j, k) =>
      if k ≠ 0 then
        gmbLoop a b fuel
          ((if i + k < ahi ∧ j + k < bhi then [(i + k, ahi, j + k, bhi)] else []) ++
           (if alo < i ∧ blo < j then [(alo, i, blo, j)] else []) ++ rest)
          (acc ++ [(i, j, k)])
      else gmbLoop a b fuel rest acc

/-- Lexicographic order on matching blocks, as Python tuple comparison. -/
def blockLe (x y : Nat × Nat × Nat) : Bool :=
  x.1 < y.1 || (x.1 = y.1 && (x.2.1 < y.2.1 || (x.2.1 = y.2.1 && x.2.2 ≤ y.2.2)))

/-- Stable insertion into a sorted list of blocks. -/
def blockInsert (x : Nat × Nat × Nat) : List (Nat × Nat × Nat) → List (Nat × Nat × Nat)
  | [] => [x]
  | y :: ys => if blockLe x y then x :: y :: ys else y :: blockInsert x ys

/-- Stable sort of the matching blocks (`matching_blocks.sort()`). -/
def blockSort : List (Nat × Nat × Nat) → List (Nat × Nat × Nat)
  | [] => []
  | x :: xs => blockInsert x (blockSort xs)

/-- The second phase of `get_matching_blocks`: merge adjacent blocks, with
the running block `(i1, j1, k1)` starting at `(0, 0, 0)`. -/
def mergeAdjacent : Nat → Nat → Nat → List (Nat × Nat × Nat) → List (Nat × Nat × Nat)
  | i1, j1, k1, [] => if k1 ≠ 0 then [(i1, j1, k1)] else []
  | i1, j1, k1, (i2, j2, k2) :: rest =>
    if i1 + k1 = i2 ∧ j1 + k1 = j2 then mergeAdjacent i1 j1 (k1 + k2) rest
    else if k1 ≠ 0 then (i1, j1, k1) :: mergeAdjacent i2 j2 k2 rest
    else mergeAdjacent i2 j2 k2 rest

/-- `SequenceMatcher.get_matching_blocks()`, including the `(la, lb, 0)`
terminator. -/
def get_matching_blocks (a b : List String) : List (Nat × Nat × Nat) :=
  mergeAdjacent 0 0 0
    (blockSort (gmbLoop a b (2 * (a.length + b.length) + 2)
      [(0, a.length, 0, b.length)] [])) ++ [(a.length, b.length, 0)]

/-- The opcode tags of difflib. -/
inductive DTag where
  | replace
  | delete
  | insert
  | equal
deriving DecidableEq

/-- The fold inside `get_opcodes`, running over the matching blocks with the
cursor `(i, j)`. -/
def opcodesFrom : Nat → Nat → List (Nat × Nat × Nat) → List (DTag × Nat × Nat × Nat × Nat)
  | _, _, [] => []
  | i, j, (ai, bj, size) :: rest =>
    (if i < ai ∧ j < bj then [(DTag.replace, i, ai, j, bj)]
     else if i < ai then [(DTag.delete, i, ai, j, bj)]
     else if j < bj then [(DTag.insert, i, ai, j, bj)]
     else []) ++
    (if size ≠ 0 then [(DTag.equal, ai, ai + size, bj, bj + size)] else []) ++
    opcodesFrom (ai + size) (bj + size) rest

/-- `SequenceMatcher.get_opcodes()`. -/
def get_opcodes (a b : List String) : List (DTag × Nat × Nat × Nat × Nat) :=
  opcodesFrom 0 0 (get_matching_blocks a b)

/-! ### VisualDiff (src/filepilot/visualdiff.py) -/

/-- One element of the list returned by `VisualDiff.get_changes`: the tuple
`(line_number, line1, line2, is_different)`.  `line` is an `Int` because the
ellipsis sentinel is `-1`. -/
structure ChangeRecord where
  line : Int
  old : String
  new : String
  isDiff : Bool
deriving DecidableEq

/-- `range(lo, hi)` over integers. -/
def intRange (lo hi : Int) : List Int :=
  (List.range (hi - lo).toNat).map (fun k => lo + (k : Int))

/-- The context block emitted at the top of each opcode iteration of
`VisualDiff.get_changes` when `i1 > last_line + 1`: an ellipsis sentinel for
gaps wider than `context_lines + 2`, then the context lines from
`max(last_line + 1, i1 - context_lines)` up to `i1`. -/
def ctxBefore (lines1 : List String) (ctx : Nat) (lastLine : Int) (i1 : Nat) :
    List ChangeRecord :=
  if (i1 : Int) > lastLine + 1 then
    (if (i1 : Int) > lastLine + (ctx : Int) + 2 then [⟨-1, "...", "...", false⟩] else []) ++
    (intRange (max (lastLine + 1) ((i1 : Int) - (ctx : Int))) (i1 : Int)).map
      (fun i => ⟨i + 1, lines1.getD i.toNat "", lines1.getD i.toNat "", false⟩)
  else []

/-- One opcode iteration of the loop in `VisualDiff.get_changes`, mapping the
accumulated record list and `last_line` to their next values. -/
def stepChanges (lines1 lines2 : List String) (ctx : Nat)
    (st : List ChangeRecord × Int) (op : DTag × Nat × Nat × Nat × Nat) :
    List ChangeRecord × Int :=
  match st, op with
  | (acc, lastLine), (tag, i1, i2, j1, j2) =>
    let acc := acc ++ ctxBefore lines1 ctx lastLine i1
    let acc := acc ++
      (match tag with
       | DTag.replace =>
         (List.range (max (i2 - i1) (j2 - j1))).map (fun (k : Nat) =>
           ⟨(i1 : Int) + (k : Int) + 1,
            if i1 + k < i2 then lines1.getD (i1 + k) "" else "",
            if j1 + k < j2 then lines2.getD (j1 + k) "" else "", true⟩)
       | DTag.delete =>
         (List.range (i2 - i1)).map (fun (d : Nat) =>
           ⟨(i1 : Int) + (d : Int) + 1, lines1.getD (i1 + d) "", "", true⟩)
       | DTag.insert =>
         (List.range (j2 - j1)).map (fun (d : Nat) =>
           ⟨(i1 : Int) + 1, "", lines2.getD (j1 + d) "", true⟩)
       | DTag.equal =>
         match acc.getLast? with
         | some r =>
           if r.isDiff then
             (List.range (min (i1 + ctx) i2 - i1)).map (fun (d : Nat) =>
               ⟨(i1 : Int) + (d : Int) + 1, lines1.getD (i1 + d) "",
                lines2.getD (i1 + d) "", false⟩)
           else []
         | none => [])
    (acc, (i2 : Int) - 1)

/-- `VisualDiff.get_changes` on the two line lists, for a given
`context_lines`. -/
def get_changes_lines (ctx : Nat) (lines1 lines2 : List String) : List ChangeRecord :=
  ((get_opcodes lines1 lines2).foldl (stepChanges lines1 lines2 ctx) ([], -1)).1

/-- `VisualDiff.get_changes(text1, text2)` with the default
`context_lines = 3` used by `ChangeManager`'s `VisualDiff()`. -/
def get_changes (t1 t2 : String) : List ChangeRecord :=
  get_changes_lines 3 (pySplitlines t1) (pySplitlines t2)

/-- The number of records flagged as different — the quantity the spec calls
`change_count`. -/
def countDifferent (rs : List ChangeRecord) : Nat :=
  (rs.filter (fun r => r.isDiff)).length

/-- `VisualDiff.visualize_diff(file1, file2)` as a function of the two file
contents.  The Python method computes `get_changes`, renders a table (I/O,
outside this embedding) and ends without a `return` statement, so its value
is `None`; `Option Nat` models "int or None". -/
def visualize_diff (t1 t2 : String) : Option Nat :=
  let _ := get_changes t1 t2
  none

/-- `ChangeManager.show_diff(original_file, preview_file)` as a function of
the two file contents: it returns `visualize_diff`'s value unchanged. -/
def show_diff (t1 t2 : String) : Option Nat :=
  visualize_diff t1 t2

/-! ### ChangeManager.apply_edit_instructions_to_content
(src/filepilot/changemanager.py) -/

/-- One edit-instruction dictionary, with the fields the apply loop reads
(`instr.get('action')`, `instr.get('text')`, `instr.get('content', '')`).
`none` models a missing key; dictionaries may carry further keys (such as
`'line'` for a delete-by-line instruction) but the function never reads
them.  `content = none` stands for a missing key, which
`instr.get('content', '')` turns into `""`. -/
structure Instr where
  action : Option String
  text : Option String
  content : Option String
deriving DecidableEq

/-- `instr.get('content', '').rstrip('\n').split('\n')` as a list of line
strings. -/
def contentLines (content : Option String) : List String :=
  (splitNlL (rstripNlL (content.getD "").data)).map String.mk

/-- The `insert` loop: walk the buffer, and after the first line containing
the anchor splice in the new lines (`lines[:i+1] + new_lines + lines[i+1:]`)
and `break`. -/
def insertAfterFirst (t : String) (newLines : List String) : List String → List String
  | [] => []
  | l :: ls =>
    if pyInL t.data l.data then l :: (newLines ++ ls)
    else l :: insertAfterFirst t newLines ls

/-- One iteration of the instruction loop of
`ChangeManager.apply_edit_instructions_to_content`.  `remove` filters out
every line containing the anchor; `insert` splices after the first matching
line; `replace` substitutes the anchor substring inside every matching line;
any other action (for example `delete`), or a missing `text` key (which
raises a `TypeError` that the loop catches and skips), leaves the buffer
unchanged. -/
def applyInstr (lines : List String) (instr : Instr) : List String :=
  match instr.action, instr.text with
  | some "remove", some t => lines.filter (fun l => !(pyInL t.data l.data))
  | some "insert", some t => insertAfterFirst t (contentLines instr.content) lines
  | some "replace", some t =>
    lines.map (fun l =>
      if pyInL t.data l.data then
        String.mk (pyReplaceL t.data (joinNlL ((contentLines instr.content).map String.data)) l.data)
      else l)
  | _, _ => lines

/-- `ChangeManager.apply_edit_instructions_to_content(content, instructions)`:
split `content.rstrip('\n')` on `'\n'`, run the instruction loop, and return
`'\n'.join(lines) + '\n'`. -/
def apply_edit_instructions_to_content (content : String) (instructions : List Instr) : String :=
  String.mk
    (joinNlL (((instructions.foldl applyInstr
      ((splitNlL (rstripNlL content.data)).map String.mk))).map String.data) ++ ['\n'])

/-! ### ChangeManager.parse_edit_instructions
(src/filepilot/changemanager.py)

The two regular expressions are embedded as explicit scanners with Python's
leftmost and lazy-group semantics:

* `re.search(r'<modifications>(.*?)</modifications>', response, re.DOTALL)` —
  the match starts at the first occurrence of the opening tag that is
  followed by a closing tag, and the lazy group ends at the first closing
  tag after it.  If the first opening tag has no closing tag after it, no
  later one has either, so scanning only the first opening tag is exact.
* `re.finditer(r'<change\s+type="(remove|insert|replace)">\s*<text>(.*?)</text>\s*<content>(.*?)</content>\s*</change>', ..., re.DOTALL)` —
  non-overlapping leftmost matches; every match starts with the literal
  `<change`, each `\s*`/`\s+` is a maximal munch (the following literal
  starts with a non-space character, so no backtracking into it is
  possible), and each lazy group tries the occurrences of its closing
  literal in ascending order, the inner group backtracking before the outer
  one. -/

/-- `NoChangesFoundError`. -/
inductive ParseError where
  | noChangesFound
deriving DecidableEq

/-- The group-1 content of the `<modifications>` block, if the pattern
matches. -/
def extractModifications (s : List Char) : Option (List Char) :=
  match findSubL "<modifications>".data s 0 with
  | none => none
  | some o =>
    match findSubL "</modifications>".data s (o + 15) with
    | none => none
    | some c => some ((s.drop (o + 15)).take (c - (o + 15)))

/-- Skip a maximal run of whitespace starting at `p`, returning the first
non-whitespace position. -/
def skipSpacesL (s : List Char) (p : Nat) : Nat :=
  p + ((s.drop p).takeWhile isPySpace).length

/-- Match the literal `lit` at position `p`, returning the position after
it. -/
def matchLit (lit s : List Char) (p : Nat) : Option Nat :=
  if lit.isPrefixOf (s.drop p) then some (p + lit.length) else none

/-- Match `\s*` followed by the literal `lit`. -/
def matchWsLit (lit s : List Char) (p : Nat) : Option Nat :=
  matchLit lit s (skipSpacesL s p)

/-- Match the alternation `(remove|insert|replace)` at `p`. -/
def matchAction (s : List Char) (p : Nat) : Option (String × Nat) :=
  match matchLit "remove".data s p with
  | some q => some ("remove", q)
  | none =>
    match matchLit "insert".data s p with
    | some q => some ("insert", q)
    | none =>
      match matchLit "replace".data s p with
      | some q => some ("replace", q)
      | none => none

/-- Try to match the change pattern starting exactly at `p`; on success
return `(type, text group, content group)` and the end position. -/
def matchChangeAt (s : List Char) (p : Nat) :
    Option ((String × List Char × List Char) × Nat) :=
  match matchLit "<change".data s p with
  | none => none
  | some p1 =>
    let p1' := skipSpacesL s p1
    if p1' = p1 then none  -- \s+ needs at least one whitespace character
    else
      match matchLit "type=\x22".data s p1' with
      | none => none
      | some p2 =>
        match matchAction s p2 with
        | none => none
        | some (act, p3) =>
          match matchLit "\x22>".data s p3 with
          | none => none
          | some p4 =>
            match matchWsLit "<text>".data s p4 with
            | none => none
            | some p5 =>
              (occurrencesL "</text>".data s p5).findSome? (fun c1 =>
                let txt := (s.drop p5).take (c1 - p5)
                match matchWsLit "<content>".data s (c1 + 7) with
                | none => none
                | some p6 =>
                  (occurrencesL "</content>".data s p6).findSome? (fun c2 =>
                    let cont := (s.drop p6).take (c2 - p6)
                    match matchWsLit "</change>".data s (c2 + 10) with
                    | none => none
                    | some pEnd => some ((act, txt, cont), pEnd)))

/-- `re.finditer` of the change pattern: scan the occurrences of the literal
prefix `<change` from left to right, emitting each match and resuming after
its end.  The fuel strictly exceeds the scan position's range. -/
def findChanges (s : List Char) : Nat → Nat → List (String × List Char × List Char)
  | _, 0 => []
  | pos, fuel + 1 =>
    match findSubL "<change".data s pos with
    | none => []
    | some q =>
      match matchChangeAt s q with
      | some (entry, pEnd) => entry :: findChanges s pEnd fuel
      | none => findChanges s (q + 1) fuel

/-- The `line.split(': ', 1)[1] if ': ' in line else line` normalization of
one content line. -/
def stripLineNum (l : List Char) : List Char :=
  if pyInL ": ".data l then afterFirstL ": ".data l else l

/-- The content normalization of `parse_edit_instructions`: for a `replace`
whose content contains a newline, strip the `N: ` style prefix of every
content line. -/
def normalizeContent (action : String) (content : List Char) : List Char :=
  if action == "replace" && pyInL ['\n'] content then
    joinNlL ((splitNlL content).map stripLineNum)
  else content

/-- The per-entry processing of the `finditer` loop: strip both groups, skip
the entry when the stripped text is empty (a warning, not an error), and
normalize the content. -/
def entryToInstr (e : String × List Char × List Char) : Option Instr :=
  match e with
  | (action, textGroup, contentGroup) =>
    let text := stripL textGroup
    if text.isEmpty then none
    else
      some ⟨some action, some (String.mk text),
        some (String.mk (normalizeContent action (stripL contentGroup)))⟩

/-- The instruction list collected from a `<modifications>` block body. -/
def parseChanges (block : List Char) : List Instr :=
  (findChanges block 0 (block.length + 1)).filterMap entryToInstr

/-- The instruction list of a whole response: empty when there is no
`<modifications>` block. -/
def valid_instructions (response : String) : List Instr :=
  match extractModifications response.data with
  | none => []
  | some block => parseChanges block

/-- `ChangeManager.parse_edit_instructions(response)`: raise
`NoChangesFoundError` when there is no `<modifications>` block, collect the
well-formed entries, and raise `NoChangesFoundError` again when none
remain. -/
def parse_edit_instructions (response : String) : Except ParseError (List Instr) :=
  match extractModifications response.data with
  | none => Except.error ParseError.noChangesFound
  | some block =>
    match parseChanges block with
    | [] => Except.error ParseError.noChangesFound
    | instrs => Except.ok instrs

/-! ### Basic lemmas about the string primitives -/

theorem isPrefixOf_iff (t s : List Char) : t.isPrefixOf s = true ↔ ∃ v, s = t ++ v := by
  induction t generalizing s with
  | nil => simp [List.isPrefixOf]
  | cons c cs ih =>
    cases s with
    | nil => simp [List.isPrefixOf]
    | cons d ds =>
      simp only [List.isPrefixOf, Bool.and_eq_true, beq_iff_eq, ih, List.cons_append,
        List.cons.injEq]
      constructor
      · rintro ⟨rfl, v, rfl⟩; exact ⟨v, rfl, rfl⟩
      · rintro ⟨v, rfl, rfl⟩; exact ⟨rfl, v, rfl⟩

theorem pyInL_iff (t s : List Char) : pyInL t s = true ↔ ∃ u v, s = u ++ t ++ v := by
  induction s with
  | nil =>
    simp only [pyInL, isPrefixOf_iff]
    constructor
    · rintro ⟨v, hv⟩
      exact ⟨[], v, hv⟩
    · rintro ⟨u, v, huv⟩
      rcases List.append_eq_nil.mp (List.append_eq_nil.mp huv.symm).1 with ⟨rfl, rfl⟩
      exact ⟨v, huv⟩
  | cons c cs ih =>
    simp only [pyInL, Bool.or_eq_true, isPrefixOf_iff, ih]
    constructor
    · rintro (⟨v, hv⟩ | ⟨u, v, huv⟩)
      · exact ⟨[], v, by simpa using hv⟩
      · exact ⟨c :: u, v, by simp [huv]⟩
    · rintro ⟨u, v, huv⟩
      cases u with
      | nil => exact Or.inl ⟨v, by simpa using huv⟩
      | cons x xs =>
        simp only [List.cons_append, List.cons.injEq] at huv
        exact Or.inr ⟨xs, v, huv.2⟩

theorem splitNlL_ne_nil (s : List Char) : splitNlL s ≠ [] := by
  cases s with
  | nil => simp [splitNlL]
  | cons c cs =>
    simp only [splitNlL]
    split
    · simp
    · split <;> simp

theorem joinNlL_splitNlL (s : List Char) : joinNlL (splitNlL s) = s := by
  induction s with
  | nil => rfl
  | cons c cs ih =>
    simp only [splitNlL]
    split
    · rename_i hc
      rcases hl : splitNlL cs with _ | ⟨l, ls⟩
      · exact absurd hl (splitNlL_ne_nil cs)
      · rw [hl] at ih
        subst hc
        simpa [joinNlL] using ih
    · rcases hl : splitNlL cs with _ | ⟨l, ls⟩
      · exact absurd hl (splitNlL_ne_nil cs)
      · rw [hl] at ih
        cases ls with
        | nil => simpa [joinNlL] using ih
        | cons l' ls' => simp only [joinNlL, List.cons_append] at ih ⊢; rw [ih]

theorem map_data_mk (xs : List (List Char)) : (xs.map String.mk).map String.data = xs := by
  induction xs with
  | nil => rfl
  | cons x xs ih => simp only [List.map_cons, ih]

theorem afterFirstL_cons_of_neg (pat : List Char) (c : Char) (cs : List Char)
    (h : pat.isPrefixOf (c :: cs) = false) : afterFirstL pat (c :: cs) = afterFirstL pat cs := by
  simp [afterFirstL, h]

theorem afterFirstL_colon_append (post : List Char) :
    ∀ pre : List Char, pyInL [':', ' '] pre = false →
      afterFirstL [':', ' '] (pre ++ [':', ' '] ++ post) = post := by
  intro pre
  induction pre with
  | nil => intro _; simp [afterFirstL, List.isPrefixOf]
  | cons c cs ih =>
    intro h
    simp only [pyInL, Bool.or_eq_false_iff] at h
    have hpf : List.isPrefixOf [':', ' '] (c :: (cs ++ [':', ' '] ++ post)) = false := by
      cases cs with
      | nil => simp [List.isPrefixOf]
      | cons d ds =>
        have h1 := h.1
        simp only [List.isPrefixOf, Bool.and_eq_false_iff] at h1 ⊢
        rcases h1 with h1 | h1
        · exact Or.inl h1
        · rcases h1 with h1 | h1
          · exact Or.inr (Or.inl h1)
          · simp [List.isPrefixOf] at h1
    have e1 : (c :: cs) ++ [':', ' '] ++ post = c :: (cs ++ [':', ' '] ++ post) := rfl
    rw [e1, afterFirstL_cons_of_neg _ _ _ hpf]
    exact ih h.2

theorem singleton_pyInL_of_mem {c : List Char} {x : Char} (h : pyInL [x] c = true) : x ∈ c := by
  rcases (pyInL_iff _ _).mp h with ⟨u, v, rfl⟩
  simp

/-- C1: `show_diff` does not return the change count.  `visualize_diff`
renders the table and falls off the end of the function, so `show_diff`
returns `None`, although its docstring promises the number of changes and
`cli/change.py` compares the result with `0`; on the one-line files
`"a\n"`/`"b\n"` the diff holds exactly one record with
`is_different = true`, but the returned value is `None`, not `1`. -/
theorem C1_show_diff_returns_none_not_change_count :
    show_diff "a\n" "b\n" = none ∧ countDifferent (get_changes "a\n" "b\n") = 1 := by
  exact ⟨rfl, by decide⟩

/-- C2: on two buffers that differ only at one internal line with 10
unchanged lines on each side, `get_changes` emits no leading context record
and no ellipsis sentinel at all — only the changed record and the 3 trailing
context records.  The gap branch guarded by `i1 > last_line + 1` is
unreachable: `last_line` is set to `i2 - 1` after every opcode, elided
`equal` opcodes included, and consecutive difflib opcodes are contiguous. -/
theorem C2_no_leading_context_and_no_ellipsis :
    get_changes
      "l0\nl1\nl2\nl3\nl4\nl5\nl6\nl7\nl8\nl9\nX\nm0\nm1\nm2\nm3\nm4\nm5\nm6\nm7\nm8\nm9"
      "l0\nl1\nl2\nl3\nl4\nl5\nl6\nl7\nl8\nl9\nY\nm0\nm1\nm2\nm3\nm4\nm5\nm6\nm7\nm8\nm9" =
      [⟨11, "X", "Y", true⟩, ⟨12, "m0", "m0", false⟩, ⟨13, "m1", "m1", false⟩,
       ⟨14, "m2", "m2", false⟩] := by
  decide

/-- C3: a `remove` instruction filters out every line of the buffer that
contains the anchor substring (`pyInL` is exactly substring containment),
not only the first one. -/
theorem C3_remove_deletes_every_matching_line (lines : List String) (t : String)
    (cnt : Option String) (_h : t ≠ "") :
    applyInstr lines ⟨some "remove", some t, cnt⟩ =
      lines.filter (fun l => !(pyInL t.data l.data)) ∧
    ∀ l : String, pyInL t.data l.data = true ↔ ∃ u v, l.data = u ++ t.data ++ v := by
  exact ⟨rfl, fun l => pyInL_iff _ _⟩

theorem C3_witness :
    applyInstr ["a", "bx", "c", "dx"] ⟨some "remove", some "x", some ""⟩ = ["a", "c"] ∧
    (pyInL "x".data "bx".data = true ↔ ∃ u v, "bx".data = u ++ "x".data ++ v) := by
  have h := C3_remove_deletes_every_matching_line ["a", "bx", "c", "dx"] "x" (some "")
    (by decide)
  exact ⟨by rw [h.1]; decide, h.2 "bx"⟩

/-- C4: an `insert` instruction splices the content lines immediately after
the first line containing the anchor; later matching lines (which may occur
in `post`) trigger nothing. -/
theorem C4_insert_after_first_match_only (pre post : List String) (l t : String)
    (cnt : Option String) (hpre : ∀ x ∈ pre, pyInL t.data x.data = false)
    (hl : pyInL t.data l.data = true) :
    applyInstr (pre ++ l :: post) ⟨some "insert", some t, cnt⟩ =
      pre ++ l :: (contentLines cnt ++ post) := by
  show insertAfterFirst t (contentLines cnt) (pre ++ l :: post) = _
  induction pre with
  | nil => simp [insertAfterFirst, hl]
  | cons x xs ih =>
    have hx := hpre x (by simp)
    have step : insertAfterFirst t (contentLines cnt) ((x :: xs) ++ l :: post) =
        x :: insertAfterFirst t (contentLines cnt) (xs ++ l :: post) := by
      simp only [List.cons_append, insertAfterFirst, hx]
      simp
    rw [step, List.cons_append]
    exact congrArg (x :: ·) (ih (fun y hy => hpre y (by simp [hy])))

theorem C4_witness :
    applyInstr ["a", "b", "c"] ⟨some "insert", some "b", some "NEW"⟩ =
      ["a", "b", "NEW", "c"] := by
  have h := C4_insert_after_first_match_only ["a"] ["c"] "b" "b" (some "NEW")
    (by decide) (by decide)
  exact h.trans (by decide)

set_option maxRecDepth 8000 in
/-- C5: `parse_edit_instructions` raises `NoChangesFoundError` exactly when
no `<modifications>` block is found or no well-formed entry remains
(`valid_instructions` is empty); an entry with an empty anchor text is
skipped rather than fatal, so a block holding one empty-anchor entry and one
valid entry yields exactly the valid operation, while a block whose only
entry has a blank anchor, or a response without a block, raises. -/
theorem C5_parser_error_condition_and_malformed_skip :
    (∀ r : String, parse_edit_instructions r =
      if valid_instructions r = [] then Except.error ParseError.noChangesFound
      else Except.ok (valid_instructions r)) ∧
    parse_edit_instructions "ok <modifications>\n<change type=\x22insert\x22>\n<text></text>\n<content>X</content>\n</change>\n<change type=\x22insert\x22>\n<text>b</text>\n<content>NEW</content>\n</change>\n</modifications> done" =
      Except.ok [⟨some "insert", some "b", some "NEW"⟩] ∧
    parse_edit_instructions "<modifications><change type=\x22insert\x22><text> </text><content>x</content></change></modifications>" =
      Except.error ParseError.noChangesFound ∧
    parse_edit_instructions "no instruction block here" =
      Except.error ParseError.noChangesFound := by
  refine ⟨fun r => ?_, by rfl, by rfl, by rfl⟩
  cases hx : extractModifications r.data with
  | none => simp [parse_edit_instructions, valid_instructions, hx]
  | some block =>
    cases hp : parseChanges block with
    | nil => simp [parse_edit_instructions, valid_instructions, hx, hp]
    | cons e es => simp [parse_edit_instructions, valid_instructions, hx, hp]

/-- C6: the apply loop has no case for a line-number `delete` action (it
only knows `remove`, `insert` and `replace`), so a delete instruction for
line 2 leaves the buffer `a/b/c` unchanged instead of producing `a/c` as
the claim — and the module docstring's `<delete n>` protocol — require. -/
theorem C6_delete_by_line_number_is_ignored :
    apply_edit_instructions_to_content "a\nb\nc\n" [⟨some "delete", none, none⟩] =
      "a\nb\nc\n" ∧ ("a\nb\nc\n" : String) ≠ "a\nc\n" := by
  constructor <;> decide

/-- C7: applying an empty instruction list returns the input content with
its trailing newlines normalized to exactly one and nothing else changed:
the result is the input minus all trailing `'\n'` characters, plus a single
`'\n'`. -/
theorem C7_empty_instruction_list_is_identity_up_to_trailing_newline (content : String) :
    apply_edit_instructions_to_content content [] =
      String.mk (rstripNlL content.data ++ ['\n']) := by
  unfold apply_edit_instructions_to_content
  rw [List.foldl_nil, map_data_mk, joinNlL_splitNlL]

/-- C9 (counterexample): the original claim "the output ends with exactly
one trailing newline" fails: inserting empty content after the last line of
`"a"` produces `"a\n\n"`, which ends with `"\n\n"`. -/
theorem C9_counterexample_two_trailing_newlines :
    apply_edit_instructions_to_content "a" [⟨some "insert", some "a", some ""⟩] =
      "a\n\n" ∧ List.isSuffixOf "\n\n".data "a\n\n".data = true := by
  constructor <;> decide

/-- C9 (amended): the string produced by
`apply_edit_instructions_to_content` always ends with at least one `'\n'`
(the function appends one to the joined buffer), but not necessarily with
exactly one. -/
theorem C9_output_ends_with_newline (content : String) (instructions : List Instr) :
    ∃ s, apply_edit_instructions_to_content content instructions =
      String.mk (s ++ ['\n']) := by
  exact ⟨_, rfl⟩

/-- C10: in a multi-line `replace` content, every line containing `': '`
loses everything up to and including its first `': '`, whatever the prefix
is (`pre` is an arbitrary line prefix free of `': '`, numeric label or not),
while content without a newline is returned untouched by the
normalization. -/
theorem C10_replace_content_line_stripping :
    (∀ pre post : List Char, pyInL [':', ' '] pre = false →
      stripLineNum (pre ++ [':', ' '] ++ post) = post) ∧
    (∀ c : List Char, '\n' ∉ c → normalizeContent "replace" c = c) := by
  constructor
  · intro pre post h
    have hmem : pyInL ": ".data (pre ++ [':', ' '] ++ post) = true :=
      (pyInL_iff _ _).mpr ⟨pre, post, rfl⟩
    simp only [stripLineNum, hmem, if_true]
    exact afterFirstL_colon_append post pre h
  · intro c hc
    have hn : pyInL ['\n'] c = false := by
      cases h : pyInL ['\n'] c with
      | false => rfl
      | true => exact absurd (singleton_pyInL_of_mem h) hc
    simp [normalizeContent, hn]

theorem C10_witness :
    stripLineNum ("x = \x22key".data ++ [':', ' '] ++ "value\x22".data) = "value\x22".data ∧
    normalizeContent "replace" "a: b".data = "a: b".data := by
  exact ⟨C10_replace_content_line_stripping.1 "x = \x22key".data "value\x22".data (by decide),
    C10_replace_content_line_stripping.2 "a: b".data (by decide)⟩

/-! ### Self-diff: the diff of a text with itself has no changed record (C8) -/

theorem flmInner_append (i : Nat) (old : Nat → Nat) (l1 l2 : List Nat) :
    ∀ st : (Nat → Nat) × Nat × Nat × Nat,
      flmInner i old (l1 ++ l2) st = flmInner i old l2 (flmInner i old l1 st) := by
  induction l1 with
  | nil => intro st; rfl
  | cons j js ih =>
    intro st
    obtain ⟨nw, bi, bj, bs⟩ := st
    simp only [List.cons_append, flmInner]
    split <;> exact ih _

theorem flmInner_keep (i : Nat) (old : Nat → Nat) :
    ∀ (js : List Nat) (nw : Nat → Nat) (bi bj bs : Nat),
      (∀ j ∈ js, (if j = 0 then 0 else old (j - 1)) + 1 ≤ bs) →
      (flmInner i old js (nw, bi, bj, bs)).2 = (bi, bj, bs) := by
  intro js
  induction js with
  | nil => intro nw bi bj bs _; rfl
  | cons j js ih =>
    intro nw bi bj bs h
    have hk : ¬ bs < (if j = 0 then 0 else old (j - 1)) + 1 := by
      have := h j (by simp); omega
    simp only [flmInner]
    rw [if_neg hk]
    exact ih _ bi bj bs (fun x hx => h x (by simp [hx]))

theorem flmInner_nw (i : Nat) (old : Nat → Nat) :
    ∀ (js : List Nat) (nw : Nat → Nat) (t : Nat × Nat × Nat) (m : Nat),
      (flmInner i old js (nw, t)).1 m =
        if m ∈ js then (if m = 0 then 0 else old (m - 1)) + 1 else nw m := by
  intro js
  induction js with
  | nil => intro nw t m; simp [flmInner]
  | cons j js ih =>
    intro nw t m
    obtain ⟨bi, bj, bs⟩ := t
    simp only [flmInner]
    have hsplit :
        (if bs < (if j = 0 then 0 else old (j - 1)) + 1 then
          ((fun m => if m = j then (if j = 0 then 0 else old (j - 1)) + 1 else nw m),
            i + 1 - ((if j = 0 then 0 else old (j - 1)) + 1),
            j + 1 - ((if j = 0 then 0 else old (j - 1)) + 1),
            (if j = 0 then 0 else old (j - 1)) + 1)
         else
          ((fun m => if m = j then (if j = 0 then 0 else old (j - 1)) + 1 else nw m),
            bi, bj, bs)) =
        ((fun m => if m = j then (if j = 0 then 0 else old (j - 1)) + 1 else nw m),
          (if bs < (if j = 0 then 0 else old (j - 1)) + 1 then
            (i + 1 - ((if j = 0 then 0 else old (j - 1)) + 1),
             j + 1 - ((if j = 0 then 0 else old (j - 1)) + 1),
             (if j = 0 then 0 else old (j - 1)) + 1)
           else (bi, bj, bs))) := by
      by_cases hc : bs < (if j = 0 then 0 else old (j - 1)) + 1
      · rw [if_pos hc, if_pos hc]
      · rw [if_neg hc, if_neg hc]
    rw [hsplit, ih]
    by_cases hm : m ∈ js
    · simp [hm]
    · by_cases hmj : m = j
      · subst hmj; simp [hm]
      · simp [hm, hmj]

theorem flmInner_diag (i : Nat) (J : Nat → Nat) (pre post : List Nat) (nw : Nat → Nat)
    (hpre : ∀ j ∈ pre, j < i) (hpost : ∀ j ∈ post, i < j)
    (hJB : ∀ m, J m ≤ i) (hJD : ∀ m, J m ≤ m + 1)
    (hdiag : i = 0 ∨ J (i - 1) = i) :
    (flmInner i J (pre ++ i :: post) (nw, 0, 0, i)).2 = (0, 0, i + 1) := by
  rw [flmInner_append]
  have h1 : (flmInner i J pre (nw, 0, 0, i)).2 = (0, 0, i) := by
    apply flmInner_keep
    intro j hj
    have hji := hpre j hj
    by_cases hj0 : j = 0
    · subst hj0; simp; omega
    · have := hJD (j - 1)
      simp only [hj0, if_false]
      omega
  have h1' : flmInner i J pre (nw, 0, 0, i) = ((flmInner i J pre (nw, 0, 0, i)).1, 0, 0, i) := by
    conv_lhs => rw [show flmInner i J pre (nw, 0, 0, i) =
      ((flmInner i J pre (nw, 0, 0, i)).1, (flmInner i J pre (nw, 0, 0, i)).2) from rfl]
    rw [h1]
  rw [h1']
  have hk : (if i = 0 then 0 else J (i - 1)) + 1 = i + 1 := by
    rcases hdiag with h | h
    · subst h; simp
    · by_cases h0 : i = 0
      · subst h0; simp
      · simp [h0, h]
  simp only [flmInner]
  rw [hk, if_pos (Nat.lt_succ_self i), Nat.sub_self]
  apply flmInner_keep
  intro j hj
  have hji := hpost j hj
  have hj0 : j ≠ 0 := by omega
  have := hJB (j - 1)
  simp only [hj0, if_false]
  omega

theorem b2jGet_lt (b : List String) (x : String) : ∀ j ∈ b2jGet b x, j < b.length := by
  intro j hj
  exact List.mem_range.mp (List.mem_filter.mp hj).1

theorem b2jGet_pairwise (b : List String) (x : String) : (b2jGet b x).Pairwise (· < ·) :=
  (List.pairwise_lt_range b.length).sublist (List.filter_sublist _)

theorem mem_b2jGet_self (a : List String) (i : Nat) (h : i < a.length) :
    i ∈ b2jGet a (a.getD i "") :=
  List.mem_filter.mpr ⟨List.mem_range.mpr h, beq_self_eq_true _⟩

theorem rowCols_self (a : List String) (i : Nat) :
    rowCols a a 0 a.length i = b2jGet a (a.getD i "") := by
  unfold rowCols
  rw [List.takeWhile_eq_self_iff.mpr (fun x hx => by simpa using b2jGet_lt a _ x hx)]
  rw [List.filter_eq_self.mpr (fun x _ => by simp)]

theorem flmLoop_self (a : List String) :
    ∀ (d i : Nat) (J : Nat → Nat),
      i + d = a.length →
      (∀ m, J m ≤ i) → (∀ m, J m ≤ m + 1) → (i = 0 ∨ J (i - 1) = i) →
      flmLoop a a 0 a.length (List.range' i d) J (0, 0, i) = (0, 0, a.length) := by
  intro d
  induction d with
  | zero =>
    intro i J hlen _ _ _
    have hi : i = a.length := by omega
    subst hi
    rfl
  | succ d ih =>
    intro i J hlen hJB hJD hdiag
    have hi : i < a.length := by omega
    rw [List.range'_succ i d 1]
    simp only [flmLoop]
    rw [rowCols_self a i]
    obtain ⟨pre, post, hsplit⟩ := List.append_of_mem (mem_b2jGet_self a i hi)
    have hpw := b2jGet_pairwise a (a.getD i "")
    rw [hsplit] at hpw
    have hparts := List.pairwise_append.mp hpw
    have hpre : ∀ j ∈ pre, j < i := fun j hj => hparts.2.2 j hj i (by simp)
    have hpost : ∀ j ∈ post, i < j := fun j hj => (List.pairwise_cons.mp hparts.2.1).1 j hj
    rw [hsplit]
    have hbest := flmInner_diag i J pre post (fun _ => 0) hpre hpost hJB hJD hdiag
    have hk : (if i = 0 then 0 else J (i - 1)) + 1 = i + 1 := by
      rcases hdiag with h | h
      · subst h; simp
      · by_cases h0 : i = 0
        · subst h0; simp
        · simp [h0, h]
    have hJB' : ∀ m, (flmInner i J (pre ++ i :: post) ((fun _ => 0), 0, 0, i)).1 m ≤ i + 1 := by
      intro m
      rw [flmInner_nw]
      split
      · by_cases hm0 : m = 0
        · simp [hm0]
        · have := hJB (m - 1); simp only [hm0, if_false]; omega
      · omega
    have hJD' : ∀ m, (flmInner i J (pre ++ i :: post) ((fun _ => 0), 0, 0, i)).1 m ≤ m + 1 := by
      intro m
      rw [flmInner_nw]
      split
      · by_cases hm0 : m = 0
        · simp [hm0]
        · have := hJD (m - 1); simp only [hm0, if_false]; omega
      · omega
    have hdiag' : (flmInner i J (pre ++ i :: post) ((fun _ => 0), 0, 0, i)).1 i = i + 1 := by
      rw [flmInner_nw]
      rw [if_pos (by simp)]
      exact hk
    rw [hbest]
    exact ih (i + 1)
      ((flmInner i J (pre ++ i :: post) ((fun _ => 0), 0, 0, i)).1)
      (by omega) hJB' hJD' (Or.inr (by simpa using hdiag'))

theorem find_longest_match_self (a : List String) :
    find_longest_match a a 0 a.length 0 a.length = (0, 0, a.length) := by
  unfold find_longest_match
  rw [Nat.sub_zero]
  rw [flmLoop_self a a.length 0 (fun _ => 0) (by omega) (fun m => Nat.le_refl 0)
    (fun m => Nat.zero_le _) (Or.inl rfl)]
  simp [extendLeft, extendRight, extendRightAux]

theorem get_matching_blocks_self (a : List String) (h : a.length ≠ 0) :
    get_matching_blocks a a = [(0, 0, a.length), (a.length, a.length, 0)] := by
  unfold get_matching_blocks
  rw [show 2 * (a.length + a.length) + 2 = (2 * (a.length + a.length) + 1) + 1 from rfl]
  simp only [gmbLoop]
  rw [find_longest_match_self]
  dsimp only
  rw [if_pos h]
  rw [if_neg (by omega : ¬(0 + a.length < a.length ∧ 0 + a.length < a.length))]
  rw [if_neg (by simp : ¬((0:Nat) < 0 ∧ (0:Nat) < 0))]
  simp only [List.append_nil, List.nil_append, gmbLoop]
  simp [blockSort, blockInsert, mergeAdjacent, h]

theorem get_opcodes_self (a : List String) (h : a.length ≠ 0) :
    get_opcodes a a = [(DTag.equal, 0, a.length, 0, a.length)] := by
  unfold get_opcodes
  rw [get_matching_blocks_self a h]
  simp [opcodesFrom, h]

theorem get_changes_lines_self (ctx : Nat) (l : List String) :
    get_changes_lines ctx l l = [] := by
  by_cases h : l.length = 0
  · have : l = [] := List.length_eq_zero.mp h
    subst this
    rfl
  · unfold get_changes_lines
    rw [get_opcodes_self l h]
    simp only [List.foldl_cons, List.foldl_nil]
    have hstep : stepChanges l l ctx ([], -1) (DTag.equal, 0, l.length, 0, l.length) =
        ([], (l.length : Int) - 1) := by
      simp [stepChanges, ctxBefore]
    rw [hstep]

/-- C8: the diff of any text with itself contains no record flagged as
different: `get_changes X X` is in fact empty, so its change count is 0. -/
theorem C8_self_diff_has_zero_changes (X : String) :
    countDifferent (get_changes X X) = 0 := by
  unfold get_changes
  rw [get_changes_lines_self]
  rfl
